import Mathlib

/-!
Shallow embedding of the chatterbox core (alignment stream analyzer and
conditional flow-matching solver), with theorems settling the spec claims.

Tensors are modelled frame-wise / row-wise over `ℚ`: an attention matrix is a
`List (List ℚ)` (rows = query frames, columns = key positions); a logits
vector is a `List ℚ`; a (batch=1, channels, time) feature tensor is a
`List ℚ` indexed by time, one representative channel value per frame, since
every operation the claims concern acts uniformly across channels.
-/

namespace Chatterbox

/-- Maximum of a list of rationals. `torch.Tensor.max` errors on an empty
tensor; we return `0` there, a case the theorems below never rely on. -/
def maxD : List ℚ → ℚ
  | [] => 0
  | a :: t => t.foldl max a

/-- Helper for `argmax`: scan with current index, best index and best value,
keeping the first occurrence of the maximum (as `torch.argmax` does). -/
def argmaxGo : List ℚ → ℕ → ℕ → ℚ → ℕ
  | [], _, bi, _ => bi
  | x :: xs, idx, bi, bv =>
      if bv < x then argmaxGo xs (idx + 1) idx x else argmaxGo xs (idx + 1) bi bv

/-- Index of the first maximal element, mirroring `torch.argmax` on a 1-D
tensor; `0` on the empty list (where torch would error). -/
def argmax : List ℚ → ℕ
  | [] => 0
  | a :: t => argmaxGo t 1 0 a

/-- Python slice `l[-n:]`: the last `n` entries (all of `l` when `l` is
shorter than `n`). -/
def lastN (n : ℕ) (l : List ℚ) : List ℚ := l.drop (l.length - n)

/-- `tensor.sum(dim=0)` on a list of equal-length rows of width `w`:
column-wise sums. -/
def colSums (w : ℕ) (rows : List (List ℚ)) : List ℚ :=
  rows.foldl (fun acc r => List.zipWith (· + ·) acc r) (List.replicate w 0)

/-- `A.shape[1]` of a row-major matrix whose rows all have equal width. -/
def matWidth (A : List (List ℚ)) : ℕ := (A.headD []).length

/-- Mutable state of `AlignmentStreamAnalyzer` (alignment_stream_analyzer.py,
`__init__`): the growing alignment matrix plus the tracking fields. -/
structure AnalyzerState where
  alignment : List (List ℚ)
  curr_frame_pos : ℕ
  text_position : ℕ
  started : Bool
  started_at : Option ℕ
  complete : Bool
  completed_at : Option ℕ
deriving DecidableEq

/-- Analyzer state immediately after `__init__`. -/
def initState : AnalyzerState :=
  { alignment := [], curr_frame_pos := 0, text_position := 0,
    started := false, started_at := none, complete := false, completed_at := none }

/-- Lines 52-57 of `step`: slice the step attention to the text-token
columns `i..j` (dropping the `j` prompt rows on the very first call), then
zero every column beyond `curr_frame_pos + 1`
(`A_chunk[:, self.curr_frame_pos + 1:] = 0`). -/
def stepChunk (i j framePos : ℕ) (attn : List (List ℚ)) : List (List ℚ) :=
  let raw := if framePos = 0 then attn.drop j else attn
  let sliced := raw.map fun r => (r.drop i).take (j - i)
  sliced.map fun r => r.take (framePos + 1) ++ List.replicate (r.length - (framePos + 1)) 0

/-- Line 59: the alignment matrix after appending this step's chunk. -/
def stepA (i j : ℕ) (st : AnalyzerState) (attn : List (List ℚ)) : List (List ℚ) :=
  st.alignment ++ stepChunk i j st.curr_frame_pos attn

/-- Line 64: `cur_text_posn = A_chunk[-1].argmax()`. -/
def stepCur (i j : ℕ) (st : AnalyzerState) (attn : List (List ℚ)) : ℕ :=
  argmax ((stepChunk i j st.curr_frame_pos attn).getLastD [])

/-- Lines 65-67: the discontinuity test `not(-4 < cur - text_position < 7)`;
on a non-discontinuous step `text_position` is set to `cur`. -/
def stepText (i j : ℕ) (st : AnalyzerState) (attn : List (List ℚ)) : ℕ :=
  let cur := stepCur i j st attn
  let d : ℤ := (cur : ℤ) - (st.text_position : ℤ)
  if -4 < d ∧ d < 7 then cur else st.text_position

/-- Line 69: `false_start = (not started) and (A[-2:, -2:].max() > 0.1 or
A[:, :4].max() < 0.5)`. -/
def stepFalseStart (i j : ℕ) (st : AnalyzerState) (attn : List (List ℚ)) : Bool :=
  let A := stepA i j st attn
  !st.started &&
    (decide (1/10 < maxD ((A.drop (A.length - 2)).flatMap fun r => r.drop (r.length - 2))) ||
     decide (maxD (A.flatMap fun r => r.take 4) < 1/2))

/-- Line 70: `self.started = not false_start`. -/
def stepStarted (i j : ℕ) (st : AnalyzerState) (attn : List (List ℚ)) : Bool :=
  !stepFalseStart i j st attn

/-- Lines 71-72: record `started_at = T` the first time `started` holds. -/
def stepStartedAt (i j : ℕ) (st : AnalyzerState) (attn : List (List ℚ)) : Option ℕ :=
  if stepStarted i j st attn && st.started_at.isNone then
    some (stepA i j st attn).length
  else st.started_at

/-- Line 74: `self.complete = self.complete or self.text_position >= S - 3`,
with `S = A.shape[1]` and the updated `text_position`. -/
def stepComplete (i j : ℕ) (st : AnalyzerState) (attn : List (List ℚ)) : Bool :=
  st.complete ||
    decide ((matWidth (stepA i j st attn) : ℤ) - 3 ≤ (stepText i j st attn : ℤ))

/-- Lines 75-76: record `completed_at = T` the first time `complete` holds. -/
def stepCompletedAt (i j : ℕ) (st : AnalyzerState) (attn : List (List ℚ)) : Option ℕ :=
  if stepComplete i j st attn && st.completed_at.isNone then
    some (stepA i j st attn).length
  else st.completed_at

/-- Line 79: `long_tail = complete and
(A[completed_at:, -3:].sum(dim=0).max() >= 10)` — note the sum runs over
rows (dim 0), giving one total per column, and the max is over the (at most
three) column totals. -/
def stepLongTail (i j : ℕ) (st : AnalyzerState) (attn : List (List ℚ)) : Bool :=
  let A := stepA i j st attn
  let c := (stepCompletedAt i j st attn).getD 0
  stepComplete i j st attn &&
    decide (10 ≤ maxD (colSums (min 3 (matWidth A)) ((A.drop c).map (lastN 3))))

/-- Line 80: `repetition = complete and
(A[completed_at:, :-5].max(dim=1).values.sum() > 5)`. -/
def stepRepetition (i j : ℕ) (st : AnalyzerState) (attn : List (List ℚ)) : Bool :=
  let A := stepA i j st attn
  let S := matWidth A
  let c := (stepCompletedAt i j st attn).getD 0
  stepComplete i j st attn &&
    decide (5 < ((A.drop c).map fun r => maxD (r.take (S - 5))).sum)

/-- Lines 82-88: the returned logits. If `long_tail or repetition`, replace
the whole vector by `-(2^15)` with the EOS entry `2^15`; then,
unconditionally, if `cur_text_posn < S - 3`, set the EOS entry to `-2^15`. -/
def stepLogits (i j eos : ℕ) (st : AnalyzerState) (attn : List (List ℚ))
    (logits : List ℚ) : List ℚ :=
  let S := matWidth (stepA i j st attn)
  let l1 :=
    if stepLongTail i j st attn || stepRepetition i j st attn then
      (List.replicate logits.length (-(2 ^ 15 : ℚ))).set eos (2 ^ 15)
    else logits
  if (stepCur i j st attn : ℤ) < (S : ℤ) - 3 then l1.set eos (-(2 ^ 15 : ℚ)) else l1

/-- `AlignmentStreamAnalyzer.step` (lines 49-91): the updated state and the
adjusted logits. -/
def step (i j eos : ℕ) (st : AnalyzerState) (attn : List (List ℚ))
    (logits : List ℚ) : AnalyzerState × List ℚ :=
  ({ alignment := stepA i j st attn,
     curr_frame_pos := st.curr_frame_pos + 1,
     text_position := stepText i j st attn,
     started := stepStarted i j st attn,
     started_at := stepStartedAt i j st attn,
     complete := stepComplete i j st attn,
     completed_at := stepCompletedAt i j st attn },
   stepLogits i j eos st attn logits)

/-- A sequence of `step` calls from a given state, threading the state. -/
def runSteps (i j eos : ℕ) : AnalyzerState → List (List (List ℚ) × List ℚ) → AnalyzerState
  | st, [] => st
  | st, (a, lg) :: rest => runSteps i j eos (step i j eos st a lg).1 rest

/-! ### `SpeechTokensToMel.embed_ref` mismatch handling (wavegen.py 116-121)

Only the counts matter to the claim: `embedRefAdjust M K` is the pair
(mel frame count, speech-token count) after the mismatch branch. When
`M ≠ 2*K` the code truncates the token sequence to `M // 2` entries
(`ref_speech_tokens[:, :ref_mels_24.shape[1] // 2]`, a clamping slice) and
logs a warning; the mel side is never touched and nothing is raised. -/

def embedRefAdjust (melLen tokLen : ℕ) : ℕ × ℕ :=
  if melLen ≠ 2 * tokLen then (melLen, min tokLen (melLen / 2)) else (melLen, tokLen)

/-! ### ConditionalCFM (flow_matching.py)

The vector-field estimator is opaque: a function of
(x, mask, mu, t, spks, cond). The batched `(2, C, T)` call of the source is
modelled as two evaluations: row 0 carries the real `mu`, `spks`, `cond`;
row 1 keeps the all-zero conditioning it was initialised with (lines 46-58),
while `x`, `mask` and `t` are copied into both rows. -/

/-- Estimator signature: x, mask, mu, t, spks, cond ↦ derivative. -/
abbrev Estimator := List ℚ → List ℚ → List ℚ → ℚ → ℚ → List ℚ → List ℚ

/-- Lines 59-66: one estimator call for each guidance branch, then
`dphi_dt = (1 + inference_cfg_rate) * dphi_dt - inference_cfg_rate * cfg_dphi_dt`. -/
def cfgDeriv (E : Estimator) (rate : ℚ) (mask mu : List ℚ) (spks : ℚ)
    (cond : List ℚ) (x : List ℚ) (t : ℚ) : List ℚ :=
  let d := E x mask mu t spks cond
  let dcfg := E x mask (List.replicate x.length 0) t 0 (List.replicate x.length 0)
  List.zipWith (fun a b => (1 + rate) * a - rate * b) d dcfg

/-- The loop body of `solve_euler` (lines 52-71), producing the `sol` list:
state `x` at time `t` with current step `dt`, and the remaining schedule
points `t_span[step+1:]`; each iteration appends `x + dt * dphi_dt` and
recomputes `dt` from the next schedule point. -/
def eulerSol (E : Estimator) (rate : ℚ) (mask mu : List ℚ) (spks : ℚ) (cond : List ℚ) :
    List ℚ → ℚ → ℚ → List ℚ → List (List ℚ)
  | x, t, dt, [] =>
      [List.zipWith (fun xi di => xi + dt * di) x (cfgDeriv E rate mask mu spks cond x t)]
  | x, t, dt, next :: rest =>
      let x1 := List.zipWith (fun xi di => xi + dt * di) x (cfgDeriv E rate mask mu spks cond x t)
      let t1 := t + dt
      x1 :: eulerSol E rate mask mu spks cond x1 t1 (next - t1) rest

/-- Same recursion as `eulerSol` but returning only the final state. -/
def eulerFinal (E : Estimator) (rate : ℚ) (mask mu : List ℚ) (spks : ℚ) (cond : List ℚ) :
    List ℚ → ℚ → ℚ → List ℚ → List ℚ
  | x, t, dt, [] =>
      List.zipWith (fun xi di => xi + dt * di) x (cfgDeriv E rate mask mu spks cond x t)
  | x, t, dt, next :: rest =>
      let x1 := List.zipWith (fun xi di => xi + dt * di) x (cfgDeriv E rate mask mu spks cond x t)
      let t1 := t + dt
      eulerFinal E rate mask mu spks cond x1 t1 (next - t1) rest

/-- The two places `solve_euler` can raise an index error: the initial
`dt = t_span[1] - t_span[0]` on line 41 (needs two schedule points), and
`sol[-1]` on line 73 (needs a non-empty `sol`). -/
inductive EulerErr where
  | dtIndex : EulerErr
  | solEmpty : EulerErr
deriving DecidableEq

/-- `ConditionalCFM.solve_euler` (lines 40-73). Line 41 reads `t_span[0]`,
`t_span[-1]` and `t_span[1]` before the loop, so a schedule with fewer than
two points fails there; otherwise the Euler loop runs and `sol[-1]` is
returned. -/
def solveEuler (E : Estimator) (x : List ℚ) (tSpan : List ℚ) (mu mask : List ℚ)
    (spks : ℚ) (cond : List ℚ) (rate : ℚ) : Except EulerErr (List ℚ) :=
  match tSpan with
  | t0 :: t1 :: rest =>
      match (eulerSol E rate mask mu spks cond x t0 (t1 - t0) rest).getLast? with
      | some xf => Except.ok xf
      | none => Except.error EulerErr.solEmpty
  | _ => Except.error EulerErr.dtIndex

/-- `torch.linspace(0, 1, n + 1)` over ℚ (line 35; for `n = 0` this is the
one-point schedule `[0]`, since `0 / 0 = 0`). -/
def linspaceQ (n : ℕ) : List ℚ := (List.range (n + 1)).map fun k : ℕ => (k : ℚ) / (n : ℚ)

/-- Lines 28-30: `z[:, :, :cs] = cache` written functionally — the first
`cache.length` frames come from the cache, the rest keep their old values
(the source asserts `cs ≤ T` implicitly through the tensor shapes). -/
def spliceCache (v : List ℚ) (c : List ℚ) : List ℚ := c ++ v.drop c.length

/-- Line 25 and line 29: the noise field actually integrated — the sampled
noise scaled by `temperature`, its first `cache.length` frames overwritten
by the cached noise (`flow_cache[..., 0]`). -/
def cfmZAfter (noise : List ℚ) (temperature : ℚ) (cache : List (ℚ × ℚ)) : List ℚ :=
  spliceCache (noise.map (· * temperature)) (cache.map Prod.fst)

/-- Line 30: `mu[:, :, :cache_size] = flow_cache[:, :, :, 1]` — the caller's
conditioning after the in-place splice. -/
def cfmMuAfter (mu : List ℚ) (cache : List (ℚ × ℚ)) : List ℚ :=
  spliceCache mu (cache.map Prod.snd)

/-- Lines 31-33: the `FlowCacheSlice` returned to the caller — prompt region
plus the trailing 34 frames of the (already spliced) noise and conditioning,
stacked so that component 0 is noise and component 1 is conditioning. -/
def cfmCacheOut (z1 mu1 : List ℚ) (promptLen : ℕ) : List (ℚ × ℚ) :=
  (z1.take promptLen ++ lastN 34 z1).zip (mu1.take promptLen ++ lastN 34 mu1)

/-- `ConditionalCFM.forward` (lines 23-38): splice the flow cache into noise
and conditioning, build the outgoing cache, then integrate over the linear
schedule. `noise` stands for the `randn_like` sample, passed explicitly. -/
def cfmForward (E : Estimator) (noise mu mask : List ℚ) (nTimesteps : ℕ)
    (temperature : ℚ) (spks : ℚ) (cond : List ℚ) (promptLen : ℕ)
    (flowCache : List (ℚ × ℚ)) (rate : ℚ) :
    Except EulerErr (List ℚ) × List (ℚ × ℚ) :=
  let z1 := cfmZAfter noise temperature flowCache
  let mu1 := cfmMuAfter mu flowCache
  let cacheOut := cfmCacheOut z1 mu1 promptLen
  (solveEuler E z1 (linspaceQ nTimesteps) mu1 mask spks cond rate, cacheOut)

/-! ## Helper lemmas -/

/-- The first `c.length` positions of a spliced vector read back the cache. -/
theorem spliceCache_get?_lt (v c : List ℚ) (t : ℕ) (ht : t < c.length) :
    (spliceCache v c).get? t = c.get? t := by
  unfold spliceCache
  exact List.get?_append ht

/-- Positions at or past `c.length` of a spliced vector keep the old values
(valid while the cache fits, as the tensor shapes force in the source). -/
theorem spliceCache_get?_ge (v c : List ℚ) (t : ℕ) (_hc : c.length ≤ v.length)
    (ht : c.length ≤ t) : (spliceCache v c).get? t = v.get? t := by
  unfold spliceCache
  rw [List.get?_append_right ht, List.get?_drop]
  congr 1
  omega

/-- Combining with guidance scale zero is the identity on the conditioned
branch, whenever the two branches have equal shape. -/
theorem zipWith_cfg_zero (d dcfg : List ℚ) (h : dcfg.length = d.length) :
    List.zipWith (fun a b => (1 + (0 : ℚ)) * a - 0 * b) d dcfg = d := by
  induction d generalizing dcfg with
  | nil => simp
  | cons a d ih =>
    cases dcfg with
    | nil => simp at h
    | cons b dcfg =>
      simp only [List.zipWith_cons_cons, List.cons.injEq]
      exact ⟨by ring, ih dcfg (by simpa using h)⟩

/-- The `sol` list built by the Euler loop is never empty. -/
theorem eulerSol_ne_nil (E : Estimator) (rate : ℚ) (mask mu : List ℚ) (spks : ℚ)
    (cond : List ℚ) (x : List ℚ) (t dt : ℚ) (rest : List ℚ) :
    eulerSol E rate mask mu spks cond x t dt rest ≠ [] := by
  cases rest <;> simp [eulerSol]

/-- Dropping the head of a list keeps the last element when the tail is
non-empty. -/
theorem getLast?_cons_of_ne_nil {α : Type} (x : α) (l : List α) (h : l ≠ []) :
    (x :: l).getLast? = l.getLast? := by
  cases l with
  | nil => exact absurd rfl h
  | cons y ys => exact List.getLast?_cons_cons

/-- `sol[-1]` of the Euler loop is the directly-computed final state. -/
theorem eulerSol_getLast (E : Estimator) (rate : ℚ) (mask mu : List ℚ) (spks : ℚ)
    (cond : List ℚ) (rest : List ℚ) : ∀ (x : List ℚ) (t dt : ℚ),
    (eulerSol E rate mask mu spks cond x t dt rest).getLast? =
      some (eulerFinal E rate mask mu spks cond x t dt rest) := by
  induction rest with
  | nil => intro x t dt; simp [eulerSol, eulerFinal]
  | cons next rest ih =>
    intro x t dt
    simp only [eulerSol, eulerFinal]
    rw [getLast?_cons_of_ne_nil _ _ (eulerSol_ne_nil _ _ _ _ _ _ _ _ _ _), ih]

/-! ## Claims -/

/-- C4 counterexample: with 5 mel frames and 3 reference speech tokens the
counts differ (5 ≠ 6), the code truncates the tokens to `5 // 2 = 2`, and
afterwards the mel frame count 5 still differs from `2 * 2`: the claimed
2:1 ratio is not restored. -/
theorem C4_ref_mismatch_counterexample :
    embedRefAdjust 5 3 = (5, 2) ∧ (5 : ℕ) ≠ 2 * 2 := by decide

/-- C4 amended: on a mismatch only the token side is truncated, to
`min K (M / 2)` tokens (the mel side is untouched); when the mel count is
even and the token side was the longer one, this does restore
`M = 2 * K'` exactly. -/
theorem C4_ref_mismatch_amended (M K : ℕ) (h : M ≠ 2 * K) :
    embedRefAdjust M K = (M, min K (M / 2)) ∧
    (M % 2 = 0 → M ≤ 2 * K → M = 2 * (embedRefAdjust M K).2) := by
  refine ⟨by simp [embedRefAdjust, h], ?_⟩
  intro he hle
  simp only [embedRefAdjust, h, if_pos, ne_eq, not_false_eq_true, if_true]
  omega

/-- C4 witness: 6 mel frames against 5 tokens is a mismatch; the tokens are
cut to 3 and the 2:1 ratio holds again. -/
theorem C4_ref_mismatch_amended_witness :
    embedRefAdjust 6 5 = (6, 3) ∧ 6 = 2 * (embedRefAdjust 6 5).2 := by
  have h := C4_ref_mismatch_amended 6 5 (by decide)
  exact ⟨by rw [h.1]; decide, h.2 (by decide) (by decide)⟩

/-- C6: at every Euler step the combined derivative is
`(1 + guidanceScale) * conditioned - guidanceScale * unconditioned`
(pointwise over the feature map), and with `guidanceScale = 0` it equals the
conditioned-branch derivative exactly, for any estimator whose two branch
outputs have equal shape — the unconditioned branch has no influence. -/
theorem C6_cfg_combination (E : Estimator) (rate : ℚ) (mask mu : List ℚ)
    (spks : ℚ) (cond x : List ℚ) (t : ℚ) :
    cfgDeriv E rate mask mu spks cond x t =
      List.zipWith (fun a b => (1 + rate) * a - rate * b)
        (E x mask mu t spks cond)
        (E x mask (List.replicate x.length 0) t 0 (List.replicate x.length 0)) ∧
    ((E x mask (List.replicate x.length 0) t 0 (List.replicate x.length 0)).length =
        (E x mask mu t spks cond).length →
      cfgDeriv E 0 mask mu spks cond x t = E x mask mu t spks cond) := by
  refine ⟨rfl, fun h => ?_⟩
  unfold cfgDeriv
  exact zipWith_cfg_zero _ _ h

/-- C6 witness: the identity estimator at guidance scale 0 returns the
conditioned derivative unchanged. -/
theorem C6_cfg_combination_witness :
    cfgDeriv (fun x _ _ _ _ _ => x) 0 [1] [2] 3 [4] [5, 6] 0 = [5, 6] :=
  (C6_cfg_combination (fun x _ _ _ _ _ => x) 0 [1] [2] 3 [4] [5, 6] 0).2 rfl

/-- C9: calling `forward` with a non-empty flow cache overwrites the first
`cache_size` frames of the caller's conditioning `mu` with the cached
conditioning values (`flow_cache[..., 1]`), leaves every frame at index
`>= cache_size` unchanged, and preserves the length. -/
theorem C9_mu_splice (mu : List ℚ) (cache : List (ℚ × ℚ)) (t : ℕ)
    (h : cache.length ≤ mu.length) :
    (t < cache.length → (cfmMuAfter mu cache).get? t = (cache.map Prod.snd).get? t) ∧
    (cache.length ≤ t → (cfmMuAfter mu cache).get? t = mu.get? t) ∧
    (cfmMuAfter mu cache).length = mu.length := by
  refine ⟨fun ht => ?_, fun ht => ?_, ?_⟩
  · exact spliceCache_get?_lt _ _ _ (by simpa using ht)
  · exact spliceCache_get?_ge _ _ _ (by simpa using h) (by simpa using ht)
  · unfold cfmMuAfter spliceCache
    simp
    omega

/-- C9 witness: one cached frame `(1, 2)` over `mu = [10, 20, 30]`: frame 0
becomes the cached conditioning 2, frame 2 keeps 30. -/
theorem C9_mu_splice_witness :
    (cfmMuAfter [10, 20, 30] [(1, 2)]).get? 0 = some 2 ∧
    (cfmMuAfter [10, 20, 30] [(1, 2)]).get? 2 = some 30 := by
  constructor
  · have h := (C9_mu_splice [10, 20, 30] [(1, 2)] 0 (by decide)).1 (by decide)
    rw [h]; decide
  · have h := (C9_mu_splice [10, 20, 30] [(1, 2)] 2 (by decide)).2.1 (by decide)
    rw [h]; decide

/-- C10 counterexample: with the one-point schedule produced by
`n_timesteps = 0`, `solve_euler` fails at the initial step-size computation
`t_span[1] - t_span[0]` on line 41 — before the loop ever runs — not at the
`sol[-1]` access on line 73 that the claim names. -/
theorem C10_schedule_counterexample :
    solveEuler (fun x _ _ _ _ _ => x) [1] (linspaceQ 0) [0] [1] 0 [0] 0 =
      Except.error EulerErr.dtIndex ∧
    (Except.error EulerErr.dtIndex : Except EulerErr (List ℚ)) ≠
      Except.error EulerErr.solEmpty := by
  refine ⟨rfl, fun h => ?_⟩
  injection h with h'
  exact EulerErr.noConfusion h'

/-- C10 amended: `solve_euler` is well-defined exactly on schedules with at
least two points. On any such schedule it returns the state after the final
Euler step; for every `n_timesteps ≥ 1` the linear schedule has `n + 1 ≥ 2`
points and integration succeeds; for `n_timesteps = 0` the one-point
schedule makes the initial `t_span[1]` access fail, before the loop. -/
theorem C10_schedule_amended (E : Estimator) (x mu mask : List ℚ) (spks : ℚ)
    (cond : List ℚ) (rate : ℚ) :
    (∀ t0 t1 rest, solveEuler E x (t0 :: t1 :: rest) mu mask spks cond rate =
        Except.ok (eulerFinal E rate mask mu spks cond x t0 (t1 - t0) rest)) ∧
    (∀ n, 1 ≤ n → ∃ xf, solveEuler E x (linspaceQ n) mu mask spks cond rate =
        Except.ok xf) ∧
    (solveEuler E x (linspaceQ 0) mu mask spks cond rate =
        Except.error EulerErr.dtIndex) := by
  refine ⟨fun t0 t1 rest => ?_, fun n hn => ?_, rfl⟩
  · simp [solveEuler, eulerSol_getLast]
  · obtain ⟨m, rfl⟩ : ∃ m, n = m + 1 := ⟨n - 1, by omega⟩
    have hl : (linspaceQ (m + 1)).length = m + 2 := by
      simp only [linspaceQ, List.length_map, List.length_range]
    rcases hq : linspaceQ (m + 1) with _ | ⟨a, _ | ⟨b, l⟩⟩
    · rw [hq] at hl; simp at hl
    · rw [hq] at hl; simp at hl
    · refine ⟨eulerFinal E rate mask mu spks cond x a (b - a) l, ?_⟩
      simp [solveEuler, eulerSol_getLast]

/-- C10 witness: a single Euler step of the identity-field estimator from
`x = [1]` over the schedule `[0, 1]` returns `[2]`. -/
theorem C10_schedule_amended_witness :
    solveEuler (fun x _ _ _ _ _ => x) [1] ((0 : ℚ) :: 1 :: []) [0] [1] 0 [0] 0 =
      Except.ok [2] := by
  have h := (C10_schedule_amended (fun x _ _ _ _ _ => x) [1] [0] [1] 0 [0] 0).1 0 1 []
  rw [h]
  norm_num [eulerFinal, cfgDeriv]

/-- C5: seeding a second `forward` call with the `FlowCacheSlice` returned
by a first call reproduces the boundary region exactly: over the first
`cache_size` frames the second call's noise field equals `cache[..., 0]` and
its conditioning equals `cache[..., 1]`; moreover those cached components
are precisely the prompt-region and last-34-frame boundary values of the
first call's (temperature-scaled) noise and conditioning. -/
theorem C5_flow_cache_round_trip (E : Estimator) (noise1 mu1 mask : List ℚ)
    (n : ℕ) (temp1 temp2 : ℚ) (spks : ℚ) (cond : List ℚ) (p : ℕ)
    (noise2 mu2 : List ℚ) (rate : ℚ)
    (hlen : noise1.length = mu1.length) (t : ℕ)
    (ht : t < (cfmForward E noise1 mu1 mask n temp1 spks cond p [] rate).2.length) :
    ((cfmZAfter noise2 temp2 (cfmForward E noise1 mu1 mask n temp1 spks cond p [] rate).2).get? t =
      ((cfmForward E noise1 mu1 mask n temp1 spks cond p [] rate).2.map Prod.fst).get? t) ∧
    ((cfmMuAfter mu2 (cfmForward E noise1 mu1 mask n temp1 spks cond p [] rate).2).get? t =
      ((cfmForward E noise1 mu1 mask n temp1 spks cond p [] rate).2.map Prod.snd).get? t) ∧
    ((cfmForward E noise1 mu1 mask n temp1 spks cond p [] rate).2.map Prod.fst =
      (noise1.map (· * temp1)).take p ++ lastN 34 (noise1.map (· * temp1))) ∧
    ((cfmForward E noise1 mu1 mask n temp1 spks cond p [] rate).2.map Prod.snd =
      mu1.take p ++ lastN 34 mu1) := by
  have hz1 : cfmZAfter noise1 temp1 [] = noise1.map (· * temp1) := rfl
  have hmu1 : cfmMuAfter mu1 [] = mu1 := rfl
  have hc : (cfmForward E noise1 mu1 mask n temp1 spks cond p [] rate).2 =
      cfmCacheOut (noise1.map (· * temp1)) mu1 p := rfl
  have hlens : ((noise1.map (· * temp1)).take p ++ lastN 34 (noise1.map (· * temp1))).length =
      (mu1.take p ++ lastN 34 mu1).length := by
    simp [lastN, hlen]
  refine ⟨?_, ?_, ?_, ?_⟩
  · unfold cfmZAfter
    apply spliceCache_get?_lt
    rw [List.length_map]
    exact ht
  · unfold cfmMuAfter
    apply spliceCache_get?_lt
    rw [List.length_map]
    exact ht
  · rw [hc]
    unfold cfmCacheOut
    exact List.map_fst_zip _ _ (le_of_eq hlens)
  · rw [hc]
    unfold cfmCacheOut
    exact List.map_snd_zip _ _ (ge_of_eq hlens)

unseal Rat.add Rat.mul Rat.inv Rat.sub in
/-- C5 witness: first call over `noise1 = [1, 2, 3]`, `mu1 = [4, 5, 6]`,
prompt length 1 yields a 4-entry cache; the second call's frame 0 reads back
exactly the cached values. -/
theorem C5_flow_cache_round_trip_witness :
    ((cfmZAfter [7, 8, 9, 10] 1
        (cfmForward (fun x _ _ _ _ _ => x) [1, 2, 3] [4, 5, 6] [1] 1 1 0 [0] 1 [] 0).2).get? 0 =
      some 1) ∧
    ((cfmMuAfter [7, 8, 9, 10]
        (cfmForward (fun x _ _ _ _ _ => x) [1, 2, 3] [4, 5, 6] [1] 1 1 0 [0] 1 [] 0).2).get? 0 =
      some 4) := by
  have h := C5_flow_cache_round_trip (fun x _ _ _ _ _ => x) [1, 2, 3] [4, 5, 6] [1]
    1 1 1 0 [0] 1 [7, 8, 9, 10] [7, 8, 9, 10] 0 (by decide) 0 (by decide)
  refine ⟨?_, ?_⟩
  · rw [h.1]; decide
  · rw [h.2.1]; decide

/-- Each single `step` call preserves the stickiness of `started` and
`complete`, never rewrites a recorded frame index, and records an index only
while the corresponding flag holds. -/
theorem stepPreserves (i j eos : ℕ) (st : AnalyzerState) (a : List (List ℚ))
    (lg : List ℚ) :
    (st.started = true → (step i j eos st a lg).1.started = true) ∧
    (st.complete = true → (step i j eos st a lg).1.complete = true) ∧
    (∀ n, st.started_at = some n → (step i j eos st a lg).1.started_at = some n) ∧
    (∀ n, st.completed_at = some n → (step i j eos st a lg).1.completed_at = some n) ∧
    ((st.started_at.isSome = true → st.started = true) →
      (step i j eos st a lg).1.started_at.isSome = true →
      (step i j eos st a lg).1.started = true) ∧
    ((st.completed_at.isSome = true → st.complete = true) →
      (step i j eos st a lg).1.completed_at.isSome = true →
      (step i j eos st a lg).1.complete = true) := by
  refine ⟨?_, ?_, ?_, ?_, ?_, ?_⟩
  · intro h; simp [step, stepStarted, stepFalseStart, h]
  · intro h; simp [step, stepComplete, h]
  · intro n h; simp [step, stepStartedAt, h]
  · intro n h; simp [step, stepCompletedAt, h]
  · intro hinv hsome
    simp only [step] at hsome ⊢
    unfold stepStartedAt at hsome
    by_cases hcond : (stepStarted i j st a && st.started_at.isNone) = true
    · have hc2 := hcond
      rw [Bool.and_eq_true] at hc2
      exact hc2.1
    · rw [if_neg hcond] at hsome
      have hst : st.started = true := hinv hsome
      simp [stepStarted, stepFalseStart, hst]
  · intro hinv hsome
    simp only [step] at hsome ⊢
    unfold stepCompletedAt at hsome
    by_cases hcond : (stepComplete i j st a && st.completed_at.isNone) = true
    · have hc2 := hcond
      rw [Bool.and_eq_true] at hc2
      exact hc2.1
    · rw [if_neg hcond] at hsome
      have hst : st.complete = true := hinv hsome
      simp [stepComplete, hst]

/-- C7: across any run of `step` calls, `started` and `complete` are sticky
(once true they stay true), a recorded `started_at`/`completed_at` value is
never changed again, and whenever a frame index is recorded the matching
flag holds — so each is assigned at most once, only after its flag became
true. -/
theorem C7_sticky_flags (i j eos : ℕ) (st : AnalyzerState)
    (l : List (List (List ℚ) × List ℚ)) :
    (st.started = true → (runSteps i j eos st l).started = true) ∧
    (st.complete = true → (runSteps i j eos st l).complete = true) ∧
    (∀ n, st.started_at = some n → (runSteps i j eos st l).started_at = some n) ∧
    (∀ n, st.completed_at = some n → (runSteps i j eos st l).completed_at = some n) ∧
    ((st.started_at.isSome = true → st.started = true) →
      (runSteps i j eos st l).started_at.isSome = true →
      (runSteps i j eos st l).started = true) ∧
    ((st.completed_at.isSome = true → st.complete = true) →
      (runSteps i j eos st l).completed_at.isSome = true →
      (runSteps i j eos st l).complete = true) := by
  induction l generalizing st with
  | nil =>
    exact ⟨id, id, fun n h => h, fun n h => h, fun h => h, fun h => h⟩
  | cons prm rest ih =>
    obtain ⟨a, lg⟩ := prm
    simp only [runSteps]
    obtain ⟨h1, h2, h3, h4, h5, h6⟩ := stepPreserves i j eos st a lg
    obtain ⟨g1, g2, g3, g4, g5, g6⟩ := ih (step i j eos st a lg).1
    exact ⟨fun h => g1 (h1 h), fun h => g2 (h2 h),
           fun n h => g3 n (h3 n h), fun n h => g4 n (h4 n h),
           fun hinv => g5 (h5 hinv), fun hinv => g6 (h6 hinv)⟩

/-- C7 witness: from a state with both flags set and both frame indices
recorded at 1, a further step leaves all four fields intact. -/
theorem C7_sticky_flags_witness :
    (runSteps 0 8 0 ⟨[], 3, 0, true, some 1, true, some 1⟩
        [([[1, 0, 0, 0, 0, 0, 0, 0]], [5])]).started = true ∧
    (runSteps 0 8 0 ⟨[], 3, 0, true, some 1, true, some 1⟩
        [([[1, 0, 0, 0, 0, 0, 0, 0]], [5])]).complete = true ∧
    (runSteps 0 8 0 ⟨[], 3, 0, true, some 1, true, some 1⟩
        [([[1, 0, 0, 0, 0, 0, 0, 0]], [5])]).started_at = some 1 ∧
    (runSteps 0 8 0 ⟨[], 3, 0, true, some 1, true, some 1⟩
        [([[1, 0, 0, 0, 0, 0, 0, 0]], [5])]).completed_at = some 1 := by
  have h := C7_sticky_flags 0 8 0 ⟨[], 3, 0, true, some 1, true, some 1⟩
    [([[1, 0, 0, 0, 0, 0, 0, 0]], [5])]
  exact ⟨h.1 rfl, h.2.1 rfl, h.2.2.1 1 rfl, h.2.2.2.1 1 rfl⟩

/-- C8 counterexample: a single `step` call whose first-step attention
matrix carries 10 query rows (8 prompt rows plus two new frames) appends
two rows at once, so after one call the alignment matrix has 2 rows, not
1. -/
theorem C8_row_count_counterexample :
    (runSteps 0 8 0 initState
        [(List.replicate 8 (List.replicate 8 (0 : ℚ)) ++
            [[1, 0, 0, 0, 0, 0, 0, 0], [1, 0, 0, 0, 0, 0, 0, 0]], [5, 7, 9])]).alignment.length = 2 ∧
    (2 : ℕ) ≠ 1 := by decide

/-- Alignment growth over a tail of calls whose attention all has one query
row, from any state past the first frame. -/
theorem runSteps_one_row_growth (i j eos : ℕ)
    (rest : List (List (List ℚ) × List ℚ)) : ∀ st : AnalyzerState,
    st.curr_frame_pos ≠ 0 → (∀ prm ∈ rest, (prm.1 : List (List ℚ)).length = 1) →
    (runSteps i j eos st rest).alignment.length = st.alignment.length + rest.length := by
  induction rest with
  | nil => intro st _ _; simp [runSteps]
  | cons prm rest ih =>
    intro st hfp hrows
    obtain ⟨a, lg⟩ := prm
    simp only [runSteps]
    rw [ih (step i j eos st a lg).1 (by simp [step]) (fun q hq => hrows q (by simp [hq]))]
    have ha : a.length = 1 := hrows (a, lg) (by simp)
    simp [step, stepA, stepChunk, if_neg hfp, ha]
    omega

/-- C8 amended: the alignment matrix grows, per call, by the number of query
rows of that call's attention matrix — minus the `j` leading prompt rows on
the first call — and never shrinks; consequently the row count equals the
number of calls exactly when the first call carries `j + 1` rows and every
later call carries a single row. -/
theorem C8_row_growth_amended (i j eos : ℕ) :
    (∀ (st : AnalyzerState) (a : List (List ℚ)) (lg : List ℚ),
      (step i j eos st a lg).1.alignment.length =
        st.alignment.length +
          (if st.curr_frame_pos = 0 then a.length - j else a.length)) ∧
    (∀ (a : List (List ℚ)) (lg : List ℚ) (rest : List (List (List ℚ) × List ℚ)),
      a.length = j + 1 → (∀ prm ∈ rest, (prm.1 : List (List ℚ)).length = 1) →
      (runSteps i j eos initState ((a, lg) :: rest)).alignment.length = rest.length + 1) := by
  constructor
  · intro st a lg
    by_cases h : st.curr_frame_pos = 0 <;>
      simp [step, stepA, stepChunk, h]
  · intro a lg rest ha hrows
    have h1 : (step i j eos initState a lg).1.alignment.length = 1 := by
      simp [step, stepA, stepChunk, initState, ha]
    simp only [runSteps]
    rw [runSteps_one_row_growth i j eos rest (step i j eos initState a lg).1
      (by simp [step, initState]) hrows, h1]
    omega

/-- C8 witness: a first call with 9 rows (8 prompt rows plus one frame) and
one single-row call afterwards leave exactly 2 alignment rows. -/
theorem C8_row_growth_amended_witness :
    (runSteps 0 8 0 initState
        [(List.replicate 8 (List.replicate 8 (0 : ℚ)) ++ [[1, 0, 0, 0, 0, 0, 0, 0]], [5]),
         ([[1, 0, 0, 0, 0, 0, 0, 0]], [5])]).alignment.length = 1 + 1 := by
  exact (C8_row_growth_amended 0 8 0).2
    (List.replicate 8 (List.replicate 8 (0 : ℚ)) ++ [[1, 0, 0, 0, 0, 0, 0, 0]]) [5]
    [([[1, 0, 0, 0, 0, 0, 0, 0]], [5])] (by decide) (by decide)

unseal Rat.add Rat.mul Rat.inv Rat.sub in
/-- C1: code-bug evidence, on a reachable trace with text slice `(0, 8)` and
EOS index 0. Five frames attend to column 0, the sixth reaches column 5
(`S - 3`), making the analyzer complete with `completed_at = 6`; the seventh
frame re-attends to column 2, so repetition holds — the code logs that it is
forcing the EOS token — yet the returned logits are
`[-(2^15), -(2^15), -(2^15)]`: the unconditional suppression on line 87
(`cur_text_posn < S - 3` with `cur_text_posn = 2`) has overwritten the EOS
entry back to `-(2^15)` instead of the claimed `2^15`. -/
theorem C1_forced_eos_overwritten :
    stepRepetition 0 8
      (runSteps 0 8 0 initState
        [(List.replicate 8 (List.replicate 8 (0 : ℚ)) ++ [[1, 0, 0, 0, 0, 0, 0, 0]], [5, 7, 9]),
         ([[1, 0, 0, 0, 0, 0, 0, 0]], [5, 7, 9]),
         ([[1, 0, 0, 0, 0, 0, 0, 0]], [5, 7, 9]),
         ([[1, 0, 0, 0, 0, 0, 0, 0]], [5, 7, 9]),
         ([[1, 0, 0, 0, 0, 0, 0, 0]], [5, 7, 9]),
         ([[0, 0, 0, 0, 0, 9, 0, 0]], [5, 7, 9])])
      [[0, 0, 6, 0, 0, 0, 0, 0]] = true ∧
    stepLogits 0 8 0
      (runSteps 0 8 0 initState
        [(List.replicate 8 (List.replicate 8 (0 : ℚ)) ++ [[1, 0, 0, 0, 0, 0, 0, 0]], [5, 7, 9]),
         ([[1, 0, 0, 0, 0, 0, 0, 0]], [5, 7, 9]),
         ([[1, 0, 0, 0, 0, 0, 0, 0]], [5, 7, 9]),
         ([[1, 0, 0, 0, 0, 0, 0, 0]], [5, 7, 9]),
         ([[1, 0, 0, 0, 0, 0, 0, 0]], [5, 7, 9]),
         ([[0, 0, 0, 0, 0, 9, 0, 0]], [5, 7, 9])])
      [[0, 0, 6, 0, 0, 0, 0, 0]] [5, 7, 9] =
      [-(2 ^ 15), -(2 ^ 15), -(2 ^ 15)] ∧
    (-(2 ^ 15 : ℚ)) ≠ 2 ^ 15 := by decide

unseal Rat.add Rat.mul Rat.inv Rat.sub in
/-- C2 counterexample, on a reachable trace with text slice `(0, 8)` and EOS
index 0. Seven frames attend to column 0, so the tracked `text_position`
stays 0; the eighth frame's argmax is column 7, a discontinuity (`7 - 0`
falls outside `(-4, 7)`), so `text_position` remains 0 `< S - 3 = 5` and
neither long-tail nor repetition holds — the claim demands EOS suppression —
yet the code compares the raw argmax (`cur_text_posn = 7 ≥ 5`) and returns
the logits `[5, 7, 9]` completely unchanged. -/
theorem C2_suppression_counterexample :
    stepLongTail 0 8
      (runSteps 0 8 0 initState
        ((List.replicate 8 (List.replicate 8 (0 : ℚ)) ++ [[1, 0, 0, 0, 0, 0, 0, 0]], [5, 7, 9]) ::
          List.replicate 6 (([[1, 0, 0, 0, 0, 0, 0, 0]] : List (List ℚ)), ([5, 7, 9] : List ℚ))))
      [[0, 0, 0, 0, 0, 0, 0, 9]] = false ∧
    stepRepetition 0 8
      (runSteps 0 8 0 initState
        ((List.replicate 8 (List.replicate 8 (0 : ℚ)) ++ [[1, 0, 0, 0, 0, 0, 0, 0]], [5, 7, 9]) ::
          List.replicate 6 (([[1, 0, 0, 0, 0, 0, 0, 0]] : List (List ℚ)), ([5, 7, 9] : List ℚ))))
      [[0, 0, 0, 0, 0, 0, 0, 9]] = false ∧
    stepText 0 8
      (runSteps 0 8 0 initState
        ((List.replicate 8 (List.replicate 8 (0 : ℚ)) ++ [[1, 0, 0, 0, 0, 0, 0, 0]], [5, 7, 9]) ::
          List.replicate 6 (([[1, 0, 0, 0, 0, 0, 0, 0]] : List (List ℚ)), ([5, 7, 9] : List ℚ))))
      [[0, 0, 0, 0, 0, 0, 0, 9]] = 0 ∧
    matWidth (stepA 0 8
      (runSteps 0 8 0 initState
        ((List.replicate 8 (List.replicate 8 (0 : ℚ)) ++ [[1, 0, 0, 0, 0, 0, 0, 0]], [5, 7, 9]) ::
          List.replicate 6 (([[1, 0, 0, 0, 0, 0, 0, 0]] : List (List ℚ)), ([5, 7, 9] : List ℚ))))
      [[0, 0, 0, 0, 0, 0, 0, 9]]) = 8 ∧
    stepLogits 0 8 0
      (runSteps 0 8 0 initState
        ((List.replicate 8 (List.replicate 8 (0 : ℚ)) ++ [[1, 0, 0, 0, 0, 0, 0, 0]], [5, 7, 9]) ::
          List.replicate 6 (([[1, 0, 0, 0, 0, 0, 0, 0]] : List (List ℚ)), ([5, 7, 9] : List ℚ))))
      [[0, 0, 0, 0, 0, 0, 0, 9]] [5, 7, 9] = [5, 7, 9] := by decide

/-- C2 amended: when neither long-tail nor repetition holds, the analyzer
suppresses the EOS logit alone — leaving every other entry unchanged —
exactly when the current row's argmax `cur_text_posn` (not the
discontinuity-filtered `text_position`) is below `S - 3`. -/
theorem C2_eos_suppression_amended (i j eos : ℕ) (st : AnalyzerState)
    (attn : List (List ℚ)) (logits : List ℚ)
    (h1 : stepLongTail i j st attn = false)
    (h2 : stepRepetition i j st attn = false) :
    stepLogits i j eos st attn logits =
      if (stepCur i j st attn : ℤ) < (matWidth (stepA i j st attn) : ℤ) - 3 then
        logits.set eos (-(2 ^ 15 : ℚ))
      else logits := by
  simp [stepLogits, h1, h2]

unseal Rat.add Rat.mul Rat.inv Rat.sub in
/-- C2 witness: on the very first call (one appended frame attending to
column 0 of 8), failure conditions are off and the argmax 0 is below 5, so
only the EOS entry is forced to `-(2^15)`. -/
theorem C2_eos_suppression_amended_witness :
    stepLogits 0 8 0 initState
      (List.replicate 8 (List.replicate 8 (0 : ℚ)) ++ [[1, 0, 0, 0, 0, 0, 0, 0]])
      [5, 7, 9] = [-(2 ^ 15), 7, 9] := by
  rw [C2_eos_suppression_amended 0 8 0 initState
    (List.replicate 8 (List.replicate 8 (0 : ℚ)) ++ [[1, 0, 0, 0, 0, 0, 0, 0]])
    [5, 7, 9] (by decide) (by decide)]
  decide

/-- Pointwise reading of an element-wise list sum. -/
theorem zipWith_add_getD (a b : List ℚ) (h : a.length = b.length) (k : ℕ) :
    (List.zipWith (· + ·) a b).getD k 0 = a.getD k 0 + b.getD k 0 := by
  induction a generalizing b k with
  | nil =>
    cases b with
    | nil => simp
    | cons y ys => simp at h
  | cons x xs ih =>
    cases b with
    | nil => simp at h
    | cons y ys =>
      cases k with
      | zero => simp
      | succ k =>
        simp only [List.zipWith_cons_cons, List.getD_cons_succ]
        exact ih ys (by simpa using h) k

/-- The running column-sum fold preserves the accumulator length. -/
theorem foldl_zipWith_length (rows : List (List ℚ)) : ∀ acc : List ℚ,
    (∀ r ∈ rows, r.length = acc.length) →
    (rows.foldl (fun a r => List.zipWith (· + ·) a r) acc).length = acc.length := by
  induction rows with
  | nil => intro acc _; simp
  | cons r rows ih =>
    intro acc h
    simp only [List.foldl_cons]
    have hlen : (List.zipWith (· + ·) acc r).length = acc.length := by
      rw [List.length_zipWith, h r (by simp), min_self]
    rw [ih (List.zipWith (· + ·) acc r)
      (fun q hq => by rw [hlen]; exact h q (List.mem_cons_of_mem _ hq)), hlen]

/-- Column `k` of the running column-sum fold is the accumulator's entry `k`
plus the sum of the rows' entries `k`. -/
theorem foldl_zipWith_getD (rows : List (List ℚ)) : ∀ acc : List ℚ,
    (∀ r ∈ rows, r.length = acc.length) → ∀ k,
    (rows.foldl (fun a r => List.zipWith (· + ·) a r) acc).getD k 0 =
      acc.getD k 0 + (rows.map fun r => r.getD k 0).sum := by
  induction rows with
  | nil => intro acc _ k; simp
  | cons r rows ih =>
    intro acc h k
    simp only [List.foldl_cons, List.map_cons, List.sum_cons]
    have hlen : (List.zipWith (· + ·) acc r).length = acc.length := by
      rw [List.length_zipWith, h r (by simp), min_self]
    rw [ih (List.zipWith (· + ·) acc r)
      (fun q hq => by rw [hlen]; exact h q (List.mem_cons_of_mem _ hq)) k,
      zipWith_add_getD acc r (h r (by simp)).symm k]
    ring

/-- `getD` of an all-zero list is zero at every index. -/
theorem getD_replicate_zero (m k : ℕ) : (List.replicate m (0 : ℚ)).getD k 0 = 0 := by
  induction m generalizing k with
  | zero => simp
  | succ m ihm =>
    cases k with
    | zero => simp [List.replicate_succ]
    | succ k => simp [List.replicate_succ, ihm]

/-- `tensor.sum(dim=0)` written as a per-column indexed sum: on rows of
uniform width `w`, the fold of element-wise additions produces exactly the
list of column totals. -/
theorem colSums_eq_map (w : ℕ) (rows : List (List ℚ))
    (h : ∀ r ∈ rows, r.length = w) :
    colSums w rows = (List.range w).map fun k => (rows.map fun r => r.getD k 0).sum := by
  have hrep : ∀ r ∈ rows, r.length = (List.replicate w (0 : ℚ)).length := by
    intro r hr
    rw [List.length_replicate]
    exact h r hr
  apply List.ext_getElem
  · rw [colSums, foldl_zipWith_length rows _ hrep, List.length_replicate,
      List.length_map, List.length_range]
  · intro k h1 h2
    have hcol : (colSums w rows).getD k 0 = (rows.map fun r => r.getD k 0).sum := by
      rw [colSums, foldl_zipWith_getD rows _ hrep k, getD_replicate_zero, zero_add]
    rw [← List.getD_eq_getElem (colSums w rows) 0 h1, hcol,
      List.getElem_map, List.getElem_range]

/-- Length of a Python `l[-n:]` slice. -/
theorem lastN_length (n : ℕ) (l : List ℚ) : (lastN n l).length = min n l.length := by
  unfold lastN
  rw [List.length_drop]
  omega

/-- The long-tail statistic phrased independently of the code path: for each
column index below `w`, total that column of `rows` (each row read with
`getD`), then take the largest column total. -/
def colwiseTailMax (w : ℕ) (rows : List (List ℚ)) : ℚ :=
  maxD ((List.range w).map fun k => (rows.map fun r => r.getD k 0).sum)

unseal Rat.add Rat.mul Rat.inv Rat.sub in
/-- C3 counterexample, on a reachable trace with text slice `(0, 8)`. After
completion at frame 6, frame 7 attends to column 0 and frame 8 puts weight 4
on each of the last three columns. Row-wise (the claim's reading) the
maximal per-row sum over the last three columns is `4 + 4 + 4 = 12 ≥ 10`,
but the code's `sum(dim=0).max()` takes per-column totals `[4, 4, 4]`, whose
maximum 4 is below 10 — so `long_tail` is false although the claim says it
holds. -/
theorem C3_long_tail_counterexample :
    stepComplete 0 8
      (runSteps 0 8 0 initState
        [(List.replicate 8 (List.replicate 8 (0 : ℚ)) ++ [[1, 0, 0, 0, 0, 0, 0, 0]], [5, 7, 9]),
         ([[1, 0, 0, 0, 0, 0, 0, 0]], [5, 7, 9]),
         ([[1, 0, 0, 0, 0, 0, 0, 0]], [5, 7, 9]),
         ([[1, 0, 0, 0, 0, 0, 0, 0]], [5, 7, 9]),
         ([[1, 0, 0, 0, 0, 0, 0, 0]], [5, 7, 9]),
         ([[0, 0, 0, 0, 0, 9, 0, 0]], [5, 7, 9]),
         ([[1, 0, 0, 0, 0, 0, 0, 0]], [5, 7, 9])])
      [[0, 0, 0, 0, 0, 4, 4, 4]] = true ∧
    stepLongTail 0 8
      (runSteps 0 8 0 initState
        [(List.replicate 8 (List.replicate 8 (0 : ℚ)) ++ [[1, 0, 0, 0, 0, 0, 0, 0]], [5, 7, 9]),
         ([[1, 0, 0, 0, 0, 0, 0, 0]], [5, 7, 9]),
         ([[1, 0, 0, 0, 0, 0, 0, 0]], [5, 7, 9]),
         ([[1, 0, 0, 0, 0, 0, 0, 0]], [5, 7, 9]),
         ([[1, 0, 0, 0, 0, 0, 0, 0]], [5, 7, 9]),
         ([[0, 0, 0, 0, 0, 9, 0, 0]], [5, 7, 9]),
         ([[1, 0, 0, 0, 0, 0, 0, 0]], [5, 7, 9])])
      [[0, 0, 0, 0, 0, 4, 4, 4]] = false ∧
    10 ≤ maxD ((((stepA 0 8
      (runSteps 0 8 0 initState
        [(List.replicate 8 (List.replicate 8 (0 : ℚ)) ++ [[1, 0, 0, 0, 0, 0, 0, 0]], [5, 7, 9]),
         ([[1, 0, 0, 0, 0, 0, 0, 0]], [5, 7, 9]),
         ([[1, 0, 0, 0, 0, 0, 0, 0]], [5, 7, 9]),
         ([[1, 0, 0, 0, 0, 0, 0, 0]], [5, 7, 9]),
         ([[1, 0, 0, 0, 0, 0, 0, 0]], [5, 7, 9]),
         ([[0, 0, 0, 0, 0, 9, 0, 0]], [5, 7, 9]),
         ([[1, 0, 0, 0, 0, 0, 0, 0]], [5, 7, 9])])
      [[0, 0, 0, 0, 0, 4, 4, 4]]).drop
        ((stepCompletedAt 0 8
          (runSteps 0 8 0 initState
            [(List.replicate 8 (List.replicate 8 (0 : ℚ)) ++ [[1, 0, 0, 0, 0, 0, 0, 0]], [5, 7, 9]),
             ([[1, 0, 0, 0, 0, 0, 0, 0]], [5, 7, 9]),
             ([[1, 0, 0, 0, 0, 0, 0, 0]], [5, 7, 9]),
             ([[1, 0, 0, 0, 0, 0, 0, 0]], [5, 7, 9]),
             ([[1, 0, 0, 0, 0, 0, 0, 0]], [5, 7, 9]),
             ([[0, 0, 0, 0, 0, 9, 0, 0]], [5, 7, 9]),
             ([[1, 0, 0, 0, 0, 0, 0, 0]], [5, 7, 9])])
          [[0, 0, 0, 0, 0, 4, 4, 4]]).getD 0)).map (lastN 3)).map
        fun r => r.sum) := by decide

/-- C3 amended: once the analyzer is complete, `long_tail` holds at a step
exactly when, over the rows of the alignment matrix from `completedAtFrame`
onward restricted to the last three columns, summing each COLUMN over the
rows and then taking the maximum over the columns yields a value `≥ 10`
(the code's `sum(dim=0).max()`), for any alignment matrix of uniform row
width. -/
theorem C3_long_tail_amended (i j : ℕ) (st : AnalyzerState)
    (attn : List (List ℚ))
    (h : ∀ r ∈ stepA i j st attn, r.length = matWidth (stepA i j st attn)) :
    stepLongTail i j st attn =
      (stepComplete i j st attn &&
        decide (10 ≤ colwiseTailMax (min 3 (matWidth (stepA i j st attn)))
          (((stepA i j st attn).drop
              ((stepCompletedAt i j st attn).getD 0)).map (lastN 3)))) := by
  simp only [stepLongTail, colwiseTailMax]
  rw [colSums_eq_map]
  intro q hq
  obtain ⟨r, hr, rfl⟩ := List.mem_map.mp hq
  rw [lastN_length, h r (List.mem_of_mem_drop hr)]

unseal Rat.add Rat.mul Rat.inv Rat.sub in
/-- C3 witness: on a first call attending to column 0 the analyzer is not
complete and both sides of the amended equivalence evaluate to `false`. -/
theorem C3_long_tail_amended_witness :
    stepLongTail 0 8 initState
      (List.replicate 8 (List.replicate 8 (0 : ℚ)) ++ [[1, 0, 0, 0, 0, 0, 0, 0]]) = false := by
  rw [C3_long_tail_amended 0 8 initState
    (List.replicate 8 (List.replicate 8 (0 : ℚ)) ++ [[1, 0, 0, 0, 0, 0, 0, 0]])
    (by decide)]
  decide

end Chatterbox
